import Mathlib

/-!
# Verification of `dclab.rtdc_dataset.copier`

A shallow embedding of `src/dclab/rtdc_dataset/copier.py` — the RT-DC
container copy engine (`rtdc_copy`), the dataset transcoder (`h5ds_copy`)
and the compression predicate (`is_properly_compressed`) — together with
theorems settling the specification claims about it.

Modelling conventions:
* HDF5 datasets become a `Dataset` structure holding shape, dtype, chunk
  layout, the filter pipeline, the fletcher32 flag, attributes and the
  (flattened) element data.
* Element values are `FVal`, an extended-value type with `nan`, `+inf`,
  `-inf` and finite rationals, so that the IEEE behaviour of numpy's
  `nanmin` / `nanmax` / `nanmean` reducers is captured exactly for the
  values the claims mention.
* Groups and files are association lists of named objects; the contents of
  a sub-group are never read by the copier (it only type-checks them), so
  the group constructor carries no payload.
* Python exceptions become `Except` values; since `rtdc_copy` mutates the
  destination file in place, an exception leaves the destination partially
  populated, which is modelled by returning the partial file alongside the
  error.
-/

/-- Element values of a dataset: IEEE-style extended values.  Finite
values are rationals (exact stand-ins for the floats the claims use). -/
inductive FVal where
  | nan
  | inf
  | ninf
  | fin (q : ℚ)
deriving DecidableEq, Repr

namespace FVal

/-- NaN test (used to drop NaN elements in the `nan*` reducers). -/
def isNan : FVal → Bool
  | .nan => true
  | _ => false

/-- IEEE `<` comparison; any comparison with NaN is false. -/
def lt : FVal → FVal → Bool
  | .nan, _ => false
  | _, .nan => false
  | .ninf, .ninf => false
  | .ninf, _ => true
  | _, .ninf => false
  | .inf, _ => false
  | _, .inf => true
  | .fin a, .fin b => decide (a < b)

/-- IEEE addition on extended values (`inf + -inf = nan`). -/
def add : FVal → FVal → FVal
  | .nan, _ => .nan
  | _, .nan => .nan
  | .inf, .ninf => .nan
  | .ninf, .inf => .nan
  | .inf, _ => .inf
  | _, .inf => .inf
  | .ninf, _ => .ninf
  | _, .ninf => .ninf
  | .fin a, .fin b => .fin (a + b)

/-- Division of an extended value by a positive natural count. -/
def divNat : FVal → Nat → FVal
  | .nan, _ => .nan
  | .inf, _ => .inf
  | .ninf, _ => .ninf
  | .fin q, n => .fin (q / n)

end FVal

/-- `np.nanmin`: minimum over the non-NaN elements; NaN when all elements
are NaN (numpy warns and returns NaN on an all-NaN slice). -/
def nanmin (xs : List FVal) : FVal :=
  match xs.filter (fun x => !x.isNan) with
  | [] => .nan
  | y :: t => t.foldl (fun a b => if FVal.lt b a then b else a) y

/-- `np.nanmax`: maximum over the non-NaN elements; NaN when all elements
are NaN. -/
def nanmax (xs : List FVal) : FVal :=
  match xs.filter (fun x => !x.isNan) with
  | [] => .nan
  | y :: t => t.foldl (fun a b => if FVal.lt a b then b else a) y

/-- Sum of a list of extended values (IEEE addition, left fold from 0). -/
def sumF (xs : List FVal) : FVal :=
  xs.foldl FVal.add (.fin 0)

/-- `np.nanmean`: sum of the non-NaN elements divided by their count; NaN
when all elements are NaN. -/
def nanmean (xs : List FVal) : FVal :=
  let ys := xs.filter (fun x => !x.isNan)
  if ys.length = 0 then .nan else (sumF ys).divNat ys.length

/-- One entry of an HDF5 filter pipeline: the registered filter id and its
`cd_values` (for Zstd, `cd_values[0]` is the compression level). -/
structure H5Filter where
  fid : Nat
  cdValues : List Nat
deriving DecidableEq, Repr

/-- The registered HDF5 filter id of Zstandard (`hdf5plugin.Zstd`). -/
def ZSTD_FILTER_ID : Nat := 32015

/-- `hdf5plugin.Zstd(clevel=5)`: the canonical compression parameters used
by `h5ds_copy` whenever it re-encodes (`compression_kwargs`). -/
def zstdClevel5 : H5Filter := { fid := ZSTD_FILTER_ID, cdValues := [5] }

/-- An attribute value: a string (container metadata) or a numeric value
(the scalar statistics `min` / `max` / `mean`). -/
inductive AttrVal where
  | str (s : String)
  | num (v : FVal)
deriving DecidableEq, Repr

/-- Association-list lookup by name (HDF5 names are unique per group). -/
def alistGet {α : Type} : List (String × α) → String → Option α
  | [], _ => none
  | (k', v) :: t, k => if k' = k then some v else alistGet t k

/-- Association-list update: replace the binding of `k` when present,
append it otherwise (HDF5 attribute / dataset creation semantics). -/
def alistSet {α : Type} : List (String × α) → String → α → List (String × α)
  | [], k, v => [(k, v)]
  | (k', v') :: t, k, v =>
      if k' = k then (k, v) :: t else (k', v') :: alistSet t k v

/-- Name-presence test (`attr not in dst.attrs`, `"logs" in src_h5file`). -/
def alistHas {α : Type} (l : List (String × α)) (k : String) : Bool :=
  (alistGet l k).isSome

/-- An HDF5 dataset: shape, dtype, chunk layout, filter pipeline,
fletcher32 checksum flag, attributes and flattened element data. -/
structure Dataset where
  shape : List Nat
  dtype : String
  chunks : Option (List Nat)
  filters : List H5Filter
  fletcher32 : Bool
  attrs : List (String × AttrVal)
  data : List FVal
deriving DecidableEq, Repr

/-- A named object inside an HDF5 group: a dataset, or a sub-group.  The
copier never reads the contents of a sub-group (it only checks
`isinstance(src, h5py.Dataset)` and raises), so the group constructor
carries no payload. -/
inductive H5Obj where
  | dset (d : Dataset)
  | grp
deriving DecidableEq, Repr

/-- An HDF5 group section (`logs`, `tables`, `events`): named objects. -/
abbrev Sect := List (String × H5Obj)

/-- The root of an RT-DC file: root attributes plus the three optional
sections the copier touches. -/
structure RtdcFile where
  attrs : List (String × AttrVal)
  logs : Option Sect
  tables : Option Sect
  events : Option Sect
deriving DecidableEq, Repr

/-- Errors raised by the copier: `ValueError` for a non-dataset source
object (the spec's `NotADatasetError`) and `KeyError` for a missing
name. -/
inductive CopyErr where
  | notADataset (name : String)
  | keyError (name : String)
deriving DecidableEq, Repr

/-- The `features` argument of `rtdc_copy`: `'all' | 'scalar' | 'none'`. -/
inductive FeatureMode where
  | all
  | scalar
  | none
deriving DecidableEq, Repr

/-- `is_properly_compressed`: true iff the filter pipeline contains the
Zstandard filter (id 32015) and its first `cd_value` (the compression
level) is at least 5.  Decided from filter metadata only. -/
def is_properly_compressed (d : Dataset) : Bool :=
  match d.filters.find? (fun f => f.fid == ZSTD_FILTER_ID) with
  | some filter_args => decide (5 ≤ filter_args.cdValues.headD 0)
  | none => false

/-- The chunk-planning step of `h5ds_copy` (lines 95–110): `None` stays
`None`; a defined chunk shape whose first axis exceeds `shape[0]` gets
axis 0 replaced by `shape[0]`; otherwise it is returned unchanged.  The
`c ≠ []` conjunct mirrors Python's truthiness test `if src.chunks and
src.chunks[0] > src.shape[0]`. -/
def plan_chunks (shape : List Nat) (srcChunks : Option (List Nat)) :
    Option (List Nat) :=
  match srcChunks with
  | none => none
  | some c =>
      if c ≠ [] ∧ shape.headD 0 < c.headD 0 then
        some (c.set 0 (shape.headD 0))
      else
        some c

/-- Split a list into consecutive blocks of `n` elements (the chunk
partition along the event axis).  `n = 0` cannot arise from an HDF5 chunk
layout; it is treated as a single degenerate block. -/
def chunksOf (n : Nat) : List FVal → List (List FVal)
  | [] => []
  | x :: t =>
      if h : n = 0 then [x :: t]
      else
        (x :: t).take n :: chunksOf n ((x :: t).drop n)
termination_by l => l.length
decreasing_by
  simp only [List.length_drop, List.length_cons]
  omega

/-- Net effect of the chunk-iteration copy loop
`for chunk in src.iter_chunks(): dst[chunk] = src[chunk]`: the source's
chunk partition covers the array, so every element is copied once.  The
partition is taken along axis 0 in blocks of `chunks[0]` rows of
`prod shape.tail` elements each. -/
def iterChunksCopy (src : Dataset) : List FVal :=
  (chunksOf ((src.chunks.getD []).headD 0 * (src.shape.tail).prod)
    src.data).flatten

/-- `dst_name = dst_name or src_name`: an absent or empty destination
name falls back to the source name (Python truthiness of `or`). -/
def resolveDstName (dstName : Option String) (srcName : String) : String :=
  match dstName with
  | Option.none => srcName
  | some s => if s = "" then srcName else s

/-- The re-encoding path of `h5ds_copy` (lines 95–126): create the
destination dataset with the source's shape and dtype, the planned chunk
shape, the canonical Zstd level-5 compression, fletcher32 enabled, copy
the data (whole-array write when unchunked, chunk-by-chunk otherwise) and
copy all source attributes. -/
def reencodeDset (src : Dataset) : Dataset :=
  let chunks := plan_chunks src.shape src.chunks
  let dstData := match chunks with
    | Option.none => src.data
    | some _ => iterChunksCopy src
  { shape := src.shape
    dtype := src.dtype
    chunks := chunks
    filters := [zstdClevel5]
    fletcher32 := true
    attrs := src.attrs
    data := dstData }

/-- `h5ds_copy`: copy one named HDF5 dataset from `srcLoc` into `dstLoc`.
Returns the updated destination section (from which the caller reads back
`dst_loc[dst_name]`).  A non-dataset source raises `ValueError` (the
spec's `NotADatasetError`); when compression is enforced and the source
is not properly compressed the dataset is re-encoded, otherwise
`h5py.h5o.copy` duplicates it verbatim. -/
def h5ds_copy (srcLoc : Sect) (srcName : String) (dstLoc : Sect)
    (dstName : Option String) (ensureCompression : Bool) :
    Except CopyErr Sect :=
  let dname := resolveDstName dstName srcName
  match alistGet srcLoc srcName with
  | Option.none => .error (.keyError srcName)
  | some .grp => .error (.notADataset srcName)
  | some (.dset src) =>
      if ensureCompression && !is_properly_compressed src then
        .ok (alistSet dstLoc dname (.dset (reencodeDset src)))
      else
        .ok (alistSet dstLoc dname (.dset src))

/-- One iteration of the scalar-statistics annotation loop (lines 56–58):
`if attr not in dst.attrs: dst.attrs[attr] = ufunc(dst)`. -/
def statStep (acc : Dataset) (p : (List FVal → FVal) × String) : Dataset :=
  if alistHas acc.attrs p.2 then acc
  else { acc with attrs := alistSet acc.attrs p.2 (.num (p.1 acc.data)) }

/-- The scalar-statistics annotation loop of `rtdc_copy` (lines 53–58):
for each of `min`, `max`, `mean`, if the attribute is absent, attach the
corresponding `nan*` reduction of the dataset's elements. -/
def annotate_scalar_stats (d : Dataset) : Dataset :=
  [(nanmin, "min"), (nanmax, "max"), (nanmean, "mean")].foldl statStep d

/-- The logs/tables loop of `rtdc_copy`: copy every entry of `srcSect`
into `accDst` under `metaPrefix ++ key`.  An exception from `h5ds_copy`
propagates, leaving the entries already copied in place. -/
def copySectEntries (srcSect : Sect) (metaPrefix : String) :
    List (String × H5Obj) → Sect → Except (CopyErr × Sect) Sect
  | [], accDst => .ok accDst
  | (k, _) :: rest, accDst =>
      match h5ds_copy srcSect k accDst (some (metaPrefix ++ k)) true with
      | .error e => .error (e, accDst)
      | .ok acc2 => copySectEntries srcSect metaPrefix rest acc2

/-- The post-copy annotation step of the events loop (lines 51–58): if
`scalar_feature_exists(feat)`, read back `dst_loc[feat]` and attach the
missing statistics attributes. -/
def annotateStep (sfe : String → Bool) (feat : String) (acc2 : Sect) :
    Sect :=
  if sfe feat then
    match alistGet acc2 feat with
    | some (.dset d) => alistSet acc2 feat (.dset (annotate_scalar_stats d))
    | _ => acc2
  else acc2

/-- The events loop of `rtdc_copy` (lines 46–58): copy every feature for
which `feature_exists` holds, then annotate scalar features with the
statistics attributes. -/
def copyEventsEntries (fe : String → Bool → Bool) (sfe : String → Bool)
    (srcSect : Sect) (scalarOnly : Bool) :
    List (String × H5Obj) → Sect → Except (CopyErr × Sect) Sect
  | [], accDst => .ok accDst
  | (feat, _) :: rest, accDst =>
      if fe feat scalarOnly then
        match h5ds_copy srcSect feat accDst Option.none true with
        | .error e => .error (e, accDst)
        | .ok acc2 =>
            copyEventsEntries fe sfe srcSect scalarOnly rest
              (annotateStep sfe feat acc2)
      else
        copyEventsEntries fe sfe srcSect scalarOnly rest accDst

/-- The metadata step of `rtdc_copy` (lines 21–23): copy every root
attribute from source to destination, overwriting. -/
def mergeRootAttrs (src dst : RtdcFile) : RtdcFile :=
  { dst with
      attrs := src.attrs.foldl (fun a p => alistSet a p.1 p.2) dst.attrs }

/-- The logs step of `rtdc_copy` (lines 26–32): when enabled and a `logs`
section exists in the source, `require_group("logs")` on the destination
and copy every entry under `meta_prefix + key`. -/
def copyLogsStep (includeLogs : Bool) (srcLogs : Option Sect)
    (metaPrefix : String) (d : RtdcFile) :
    Except (CopyErr × RtdcFile) RtdcFile :=
  if includeLogs && srcLogs.isSome then
    match copySectEntries (srcLogs.getD []) metaPrefix (srcLogs.getD [])
        (d.logs.getD []) with
    | .error (e, part) => .error (e, { d with logs := some part })
    | .ok s => .ok { d with logs := some s }
  else .ok d

/-- The tables step of `rtdc_copy` (lines 35–41): same treatment as the
logs step, on the `tables` section. -/
def copyTablesStep (includeTables : Bool) (srcTables : Option Sect)
    (metaPrefix : String) (d : RtdcFile) :
    Except (CopyErr × RtdcFile) RtdcFile :=
  if includeTables && srcTables.isSome then
    match copySectEntries (srcTables.getD []) metaPrefix (srcTables.getD [])
        (d.tables.getD []) with
    | .error (e, part) => .error (e, { d with tables := some part })
    | .ok s => .ok { d with tables := some s }
  else .ok d

/-- The events step of `rtdc_copy` (lines 43–58): unless `features` is
`'none'`, `require_group("events")` on the destination, then iterate the
source's `events` group (accessed unconditionally — a missing `events`
section raises `KeyError`), copying the features the predicate retains
and annotating scalar features. -/
def copyEventsStep (fe : String → Bool → Bool) (sfe : String → Bool)
    (features : FeatureMode) (srcEvents : Option Sect) (d : RtdcFile) :
    Except (CopyErr × RtdcFile) RtdcFile :=
  if features ≠ FeatureMode.none then
    match srcEvents with
    | Option.none =>
        .error (.keyError "events", { d with events := some (d.events.getD []) })
    | some es =>
        match copyEventsEntries fe sfe es (features = FeatureMode.scalar)
            es (d.events.getD []) with
        | .error (e, part) => .error (e, { d with events := some part })
        | .ok s => .ok { d with events := some s }
  else .ok d

/-- `rtdc_copy`: whole-container copy — root attributes, then `logs`,
`tables` and `events`.  `fe` and `sfe` are the external predicates
`feature_exists(name, scalar_only)` and `scalar_feature_exists(name)`.
On an exception the partially populated destination is returned with the
error, mirroring in-place mutation of `dst_h5file`. -/
def rtdc_copy (fe : String → Bool → Bool) (sfe : String → Bool)
    (src dst : RtdcFile) (features : FeatureMode)
    (includeLogs includeTables : Bool) (metaPrefix : String) :
    Except (CopyErr × RtdcFile) RtdcFile :=
  match copyLogsStep includeLogs src.logs metaPrefix
      (mergeRootAttrs src dst) with
  | .error e => .error e
  | .ok d1 =>
      match copyTablesStep includeTables src.tables metaPrefix d1 with
      | .error e => .error e
      | .ok d2 => copyEventsStep fe sfe features src.events d2

/-! ## Helper lemmas -/

theorem chunksOf_flatten (n : Nat) (l : List FVal) :
    (chunksOf n l).flatten = l := by
  generalize hk : l.length = k
  induction k using Nat.strong_induction_on generalizing l with
  | _ k ih =>
    cases l with
    | nil => simp [chunksOf]
    | cons x t =>
      by_cases hn : n = 0
      · simp [chunksOf, hn]
      · rw [chunksOf]
        rw [dif_neg hn]
        rw [List.flatten_cons]
        rw [ih (((x :: t).drop n).length) (by
              subst hk
              simp only [List.length_drop, List.length_cons]
              omega) _ rfl]
        exact List.take_append_drop n (x :: t)

theorem reencodeDset_data (src : Dataset) :
    (reencodeDset src).data = src.data := by
  unfold reencodeDset iterChunksCopy
  cases plan_chunks src.shape src.chunks <;>
    simp [chunksOf_flatten]

theorem alistGet_set_self {α : Type} (l : List (String × α)) (k : String)
    (v : α) : alistGet (alistSet l k v) k = some v := by
  induction l with
  | nil => simp [alistGet, alistSet]
  | cons p t ih =>
      by_cases h : p.1 = k
      · simp [alistGet, alistSet, h]
      · simp [alistGet, alistSet, h, ih]

theorem alistGet_set_ne {α : Type} (l : List (String × α)) (k k' : String)
    (v : α) (h : k ≠ k') : alistGet (alistSet l k v) k' = alistGet l k' := by
  induction l with
  | nil => simp [alistGet, alistSet, h]
  | cons p t ih =>
      by_cases hp : p.1 = k
      · simp [alistGet, alistSet, hp, h]
      · simp only [alistSet, hp, if_neg hp, alistGet]
        by_cases hp' : p.1 = k'
        · simp [hp']
        · simp [hp', ih]

theorem alistHas_set_self {α : Type} (l : List (String × α)) (k : String)
    (v : α) : alistHas (alistSet l k v) k = true := by
  simp [alistHas, alistGet_set_self]

theorem alistHas_set_of_has {α : Type} (l : List (String × α))
    (k k' : String) (v : α) (h : alistHas l k' = true) :
    alistHas (alistSet l k v) k' = true := by
  by_cases hk : k = k'
  · subst hk; exact alistHas_set_self l k v
  · simpa [alistHas, alistGet_set_ne l k k' v hk] using h

theorem alistGet_of_mem_nodup {α : Type} (l : List (String × α))
    (k : String) (v : α) (hm : (k, v) ∈ l)
    (hnd : (l.map Prod.fst).Nodup) : alistGet l k = some v := by
  induction l with
  | nil => cases hm
  | cons p t ih =>
      rcases List.mem_cons.mp hm with h | h
      · subst h; simp [alistGet]
      · have hk : p.1 ≠ k := by
          simp only [List.map_cons, List.nodup_cons] at hnd
          intro he
          exact hnd.1 (he ▸ (List.mem_map.mpr ⟨(k, v), h, rfl⟩))
        simp only [alistGet, if_neg hk]
        exact ih h (by
          simp only [List.map_cons, List.nodup_cons] at hnd
          exact hnd.2)

theorem string_append_cancel_left {p a b : String}
    (h : p ++ a = p ++ b) : a = b := by
  have h2 : (p ++ a).data = (p ++ b).data := congrArg String.data h
  simp only [String.data_append] at h2
  have h3 := List.append_cancel_left h2
  cases a; cases b
  exact congrArg String.mk h3

theorem resolveDstName_prepend (p k : String) :
    resolveDstName (some (p ++ k)) k = p ++ k := by
  by_cases h : p ++ k = ""
  · have hd : (p ++ k).data = [] := congrArg String.data h
    rw [String.data_append] at hd
    have hk : k.data = [] := (List.append_eq_nil.mp hd).2
    have hke : k = "" := by
      cases k
      exact congrArg String.mk hk
    rw [h]
    simp [resolveDstName, hke]
  · simp [resolveDstName, h]

theorem resolveDstName_none (k : String) :
    resolveDstName Option.none k = k := rfl

theorem h5ds_copy_grp (srcLoc : Sect) (srcName : String) (dstLoc : Sect)
    (dstName : Option String) (ec : Bool)
    (h : alistGet srcLoc srcName = some .grp) :
    h5ds_copy srcLoc srcName dstLoc dstName ec
      = .error (.notADataset srcName) := by
  simp [h5ds_copy, h]

theorem h5ds_copy_missing (srcLoc : Sect) (srcName : String) (dstLoc : Sect)
    (dstName : Option String) (ec : Bool)
    (h : alistGet srcLoc srcName = Option.none) :
    h5ds_copy srcLoc srcName dstLoc dstName ec
      = .error (.keyError srcName) := by
  simp [h5ds_copy, h]

theorem h5ds_copy_reencode (srcLoc : Sect) (srcName : String)
    (dstLoc : Sect) (dstName : Option String) (src : Dataset)
    (h : alistGet srcLoc srcName = some (.dset src))
    (hc : is_properly_compressed src = false) :
    h5ds_copy srcLoc srcName dstLoc dstName true
      = .ok (alistSet dstLoc (resolveDstName dstName srcName)
          (.dset (reencodeDset src))) := by
  simp [h5ds_copy, h, hc]

theorem h5ds_copy_verbatim (srcLoc : Sect) (srcName : String)
    (dstLoc : Sect) (dstName : Option String) (ec : Bool) (src : Dataset)
    (h : alistGet srcLoc srcName = some (.dset src))
    (hc : ec = false ∨ is_properly_compressed src = true) :
    h5ds_copy srcLoc srcName dstLoc dstName ec
      = .ok (alistSet dstLoc (resolveDstName dstName srcName)
          (.dset src)) := by
  rcases hc with hc | hc <;> simp [h5ds_copy, h, hc]

theorem h5ds_copy_ok_data (srcLoc : Sect) (srcName : String)
    (dstLoc : Sect) (dstName : Option String) (ec : Bool) (src : Dataset)
    (h : alistGet srcLoc srcName = some (.dset src)) :
    ∃ d', h5ds_copy srcLoc srcName dstLoc dstName ec
        = .ok (alistSet dstLoc (resolveDstName dstName srcName) (.dset d'))
      ∧ d'.data = src.data := by
  by_cases hc : (ec && !is_properly_compressed src) = true
  · refine ⟨reencodeDset src, ?_, reencodeDset_data src⟩
    simp [h5ds_copy, h, hc]
  · refine ⟨src, ?_, rfl⟩
    simp only [h5ds_copy, h]
    rw [if_neg hc]

theorem h5ds_copy_ok_inv (srcLoc : Sect) (srcName : String)
    (dstLoc : Sect) (dstName : Option String) (ec : Bool) (out : Sect)
    (h : h5ds_copy srcLoc srcName dstLoc dstName ec = .ok out) :
    ∃ src d', alistGet srcLoc srcName = some (.dset src)
      ∧ out = alistSet dstLoc (resolveDstName dstName srcName) (.dset d')
      ∧ d'.data = src.data := by
  cases hg : alistGet srcLoc srcName with
  | none => rw [h5ds_copy_missing _ _ _ _ _ hg] at h; cases h
  | some o =>
      cases o with
      | grp => rw [h5ds_copy_grp _ _ _ _ _ hg] at h; cases h
      | dset src =>
          obtain ⟨d', hok, hd⟩ :=
            h5ds_copy_ok_data srcLoc srcName dstLoc dstName ec src hg
          rw [hok] at h
          have h2 : alistSet dstLoc (resolveDstName dstName srcName)
              (.dset d') = out := by
            injection h
          exact ⟨src, d', rfl, h2.symm, hd⟩

theorem statStep_data (acc : Dataset) (p : (List FVal → FVal) × String) :
    (statStep acc p).data = acc.data := by
  unfold statStep
  split <;> rfl

theorem statStep_of_has (acc : Dataset) (f : List FVal → FVal)
    (k : String) (h : alistHas acc.attrs k = true) :
    statStep acc (f, k) = acc := by
  unfold statStep
  rw [if_pos h]

theorem statStep_of_absent (acc : Dataset) (f : List FVal → FVal)
    (k : String) (h : alistHas acc.attrs k = false) :
    statStep acc (f, k)
      = { acc with attrs := alistSet acc.attrs k (.num (f acc.data)) } := by
  unfold statStep
  rw [if_neg (by simp [h])]

theorem statStep_has_self (acc : Dataset)
    (p : (List FVal → FVal) × String) :
    alistHas (statStep acc p).attrs p.2 = true := by
  unfold statStep
  by_cases h : alistHas acc.attrs p.2 = true
  · rw [if_pos h]; exact h
  · rw [if_neg h]
    exact alistHas_set_self _ _ _

theorem statStep_has_mono (acc : Dataset)
    (p : (List FVal → FVal) × String) (n : String)
    (h : alistHas acc.attrs n = true) :
    alistHas (statStep acc p).attrs n = true := by
  unfold statStep
  by_cases hc : alistHas acc.attrs p.2 = true
  · rw [if_pos hc]; exact h
  · rw [if_neg hc]
    exact alistHas_set_of_has _ _ _ _ h

theorem annotate_scalar_stats_data (d : Dataset) :
    (annotate_scalar_stats d).data = d.data := by
  show (statStep (statStep (statStep d (nanmin, "min")) (nanmax, "max"))
      (nanmean, "mean")).data = d.data
  rw [statStep_data, statStep_data, statStep_data]

theorem annotate_has_all (d : Dataset) :
    alistHas (annotate_scalar_stats d).attrs "min" = true ∧
    alistHas (annotate_scalar_stats d).attrs "max" = true ∧
    alistHas (annotate_scalar_stats d).attrs "mean" = true := by
  refine ⟨?_, ?_, ?_⟩
  · exact statStep_has_mono _ _ _
      (statStep_has_mono _ _ _ (statStep_has_self d (nanmin, "min")))
  · exact statStep_has_mono _ _ _
      (statStep_has_self (statStep d (nanmin, "min")) (nanmax, "max"))
  · exact statStep_has_self _ (nanmean, "mean")

theorem annotate_of_has (d : Dataset)
    (h1 : alistHas d.attrs "min" = true)
    (h2 : alistHas d.attrs "max" = true)
    (h3 : alistHas d.attrs "mean" = true) :
    annotate_scalar_stats d = d := by
  show statStep (statStep (statStep d (nanmin, "min")) (nanmax, "max"))
      (nanmean, "mean") = d
  rw [statStep_of_has d nanmin "min" h1, statStep_of_has d nanmax "max" h2,
    statStep_of_has d nanmean "mean" h3]

theorem copySectEntries_ok_untouched (srcSect : Sect) (p : String)
    (keys : List (String × H5Obj)) (acc out : Sect) (n : String)
    (h : copySectEntries srcSect p keys acc = .ok out)
    (hn : ∀ q ∈ keys, p ++ q.1 ≠ n) :
    alistGet out n = alistGet acc n := by
  induction keys generalizing acc with
  | nil =>
      simp only [copySectEntries] at h
      injection h with h
      rw [h]
  | cons q rest ih =>
      obtain ⟨k, o⟩ := q
      simp only [copySectEntries] at h
      cases hc : h5ds_copy srcSect k acc (some (p ++ k)) true with
      | error e => rw [hc] at h; cases h
      | ok acc2 =>
          rw [hc] at h
          obtain ⟨src, d', hg, hout, hd⟩ :=
            h5ds_copy_ok_inv srcSect k acc (some (p ++ k)) true acc2 hc
          rw [resolveDstName_prepend] at hout
          have hne : p ++ k ≠ n := hn (k, o) (List.mem_cons_self _ _)
          have h2 : alistGet acc2 n = alistGet acc n := by
            rw [hout]; exact alistGet_set_ne _ _ _ _ hne
          rw [ih acc2 h (fun q hq => hn q (List.mem_cons_of_mem _ hq)), h2]

theorem copySectEntries_ok_mem (srcSect : Sect) (p : String)
    (keys : List (String × H5Obj)) (acc out : Sect) (k : String)
    (o : H5Obj) (d : Dataset)
    (h : copySectEntries srcSect p keys acc = .ok out)
    (hnd : (keys.map Prod.fst).Nodup)
    (hm : (k, o) ∈ keys)
    (hg : alistGet srcSect k = some (.dset d)) :
    ∃ d', alistGet out (p ++ k) = some (.dset d') ∧ d'.data = d.data := by
  induction keys generalizing acc with
  | nil => cases hm
  | cons q rest ih =>
      obtain ⟨k0, o0⟩ := q
      simp only [copySectEntries] at h
      cases hc : h5ds_copy srcSect k0 acc (some (p ++ k0)) true with
      | error e => rw [hc] at h; cases h
      | ok acc2 =>
          rw [hc] at h
          simp only [List.map_cons, List.nodup_cons] at hnd
          rcases List.mem_cons.mp hm with hh | hh
          · have hk0 : k0 = k := congrArg Prod.fst hh.symm
            subst hk0
            obtain ⟨d2, hok, hd2⟩ :=
              h5ds_copy_ok_data srcSect k0 acc (some (p ++ k0)) true d hg
            rw [resolveDstName_prepend] at hok
            rw [hok] at hc
            have hacc2 : acc2 = alistSet acc (p ++ k0) (.dset d2) := by
              injection hc.symm
            have hrest : ∀ q ∈ rest, p ++ q.1 ≠ p ++ k0 := by
              intro q hq he
              have := string_append_cancel_left he
              exact hnd.1 (this ▸ (List.mem_map.mpr ⟨q, hq, rfl⟩))
            rw [copySectEntries_ok_untouched srcSect p rest acc2 out
                  (p ++ k0) h hrest, hacc2, alistGet_set_self]
            exact ⟨d2, rfl, hd2⟩
          · exact ih acc2 h hnd.2 hh

theorem annotateStep_get_ne (sfe : String → Bool) (feat : String)
    (acc : Sect) (n : String) (h : feat ≠ n) :
    alistGet (annotateStep sfe feat acc) n = alistGet acc n := by
  unfold annotateStep
  by_cases hs : sfe feat
  · rw [if_pos hs]
    cases alistGet acc feat with
    | none => rfl
    | some o =>
        cases o with
        | dset d => exact alistGet_set_ne _ _ _ _ h
        | grp => rfl
  · rw [if_neg hs]

theorem annotateStep_get_dset (sfe : String → Bool) (feat : String)
    (acc : Sect) (d2 : Dataset)
    (hg : alistGet acc feat = some (.dset d2)) :
    ∃ d3, alistGet (annotateStep sfe feat acc) feat = some (.dset d3)
      ∧ d3.data = d2.data := by
  unfold annotateStep
  by_cases hs : sfe feat
  · rw [if_pos hs, hg]
    exact ⟨annotate_scalar_stats d2, alistGet_set_self _ _ _,
      annotate_scalar_stats_data d2⟩
  · rw [if_neg hs]
    exact ⟨d2, hg, rfl⟩

theorem copyEventsEntries_ok_untouched (fe : String → Bool → Bool)
    (sfe : String → Bool) (srcSect : Sect) (so : Bool)
    (keys : List (String × H5Obj)) (acc out : Sect) (n : String)
    (h : copyEventsEntries fe sfe srcSect so keys acc = .ok out)
    (hn : ∀ q ∈ keys, fe q.1 so = true → q.1 ≠ n) :
    alistGet out n = alistGet acc n := by
  induction keys generalizing acc with
  | nil =>
      simp only [copyEventsEntries] at h
      injection h with h
      rw [h]
  | cons q rest ih =>
      obtain ⟨k, o⟩ := q
      simp only [copyEventsEntries] at h
      by_cases hf : fe k so = true
      · rw [if_pos hf] at h
        cases hc : h5ds_copy srcSect k acc Option.none true with
        | error e => rw [hc] at h; cases h
        | ok acc2 =>
            rw [hc] at h
            have h' : copyEventsEntries fe sfe srcSect so rest
                (annotateStep sfe k acc2) = .ok out := h
            obtain ⟨src, d', hg, hout, hd⟩ :=
              h5ds_copy_ok_inv srcSect k acc Option.none true acc2 hc
            rw [resolveDstName_none] at hout
            have hne : k ≠ n := hn (k, o) (List.mem_cons_self _ _) hf
            rw [ih _ h' (fun q hq => hn q (List.mem_cons_of_mem _ hq))]
            rw [annotateStep_get_ne sfe k acc2 n hne, hout]
            exact alistGet_set_ne _ _ _ _ hne
      · rw [if_neg hf] at h
        exact ih _ h (fun q hq => hn q (List.mem_cons_of_mem _ hq))

theorem copyEventsEntries_ok_mem (fe : String → Bool → Bool)
    (sfe : String → Bool) (srcSect : Sect) (so : Bool)
    (keys : List (String × H5Obj)) (acc out : Sect) (k : String)
    (o : H5Obj) (d : Dataset)
    (h : copyEventsEntries fe sfe srcSect so keys acc = .ok out)
    (hnd : (keys.map Prod.fst).Nodup)
    (hm : (k, o) ∈ keys)
    (hf : fe k so = true)
    (hg : alistGet srcSect k = some (.dset d)) :
    ∃ d', alistGet out k = some (.dset d') ∧ d'.data = d.data := by
  induction keys generalizing acc with
  | nil => cases hm
  | cons q rest ih =>
      obtain ⟨k0, o0⟩ := q
      simp only [copyEventsEntries] at h
      simp only [List.map_cons, List.nodup_cons] at hnd
      rcases List.mem_cons.mp hm with hh | hh
      · have hk0 : k0 = k := congrArg Prod.fst hh.symm
        subst hk0
        rw [if_pos hf] at h
        obtain ⟨d2, hok, hd2⟩ :=
          h5ds_copy_ok_data srcSect k0 acc Option.none true d hg
        rw [resolveDstName_none] at hok
        rw [hok] at h
        have h' : copyEventsEntries fe sfe srcSect so rest
            (annotateStep sfe k0 (alistSet acc k0 (.dset d2))) = .ok out := h
        have hrest : ∀ q ∈ rest, fe q.1 so = true → q.1 ≠ k0 := by
          intro q hq _ he
          exact hnd.1 (he ▸ (List.mem_map.mpr ⟨q, hq, rfl⟩))
        obtain ⟨d3, hg3, hd3⟩ := annotateStep_get_dset sfe k0 _ d2
          (alistGet_set_self _ _ _)
        rw [copyEventsEntries_ok_untouched fe sfe srcSect so rest _ out
              k0 h' hrest, hg3]
        exact ⟨d3, rfl, by rw [hd3, hd2]⟩
      · by_cases hf0 : fe k0 so = true
        · rw [if_pos hf0] at h
          cases hc : h5ds_copy srcSect k0 acc Option.none true with
          | error e => rw [hc] at h; cases h
          | ok acc2 =>
              rw [hc] at h
              have h' : copyEventsEntries fe sfe srcSect so rest
                  (annotateStep sfe k0 acc2) = .ok out := h
              exact ih _ h' hnd.2 hh
        · rw [if_neg hf0] at h
          exact ih _ h hnd.2 hh

theorem copyEventsEntries_all_skipped (fe : String → Bool → Bool)
    (sfe : String → Bool) (srcSect : Sect) (so : Bool)
    (keys : List (String × H5Obj)) (acc : Sect)
    (hn : ∀ q ∈ keys, fe q.1 so = false) :
    copyEventsEntries fe sfe srcSect so keys acc = .ok acc := by
  induction keys with
  | nil => rfl
  | cons q rest ih =>
      obtain ⟨k, o⟩ := q
      have hk : fe k so = false := hn (k, o) (List.mem_cons_self _ _)
      simp only [copyEventsEntries, hk]
      exact ih (fun q hq => hn q (List.mem_cons_of_mem _ hq))

theorem copyLogsStep_ok_fields (il : Bool) (sl : Option Sect) (p : String)
    (d f : RtdcFile) (h : copyLogsStep il sl p d = .ok f) :
    f.attrs = d.attrs ∧ f.tables = d.tables ∧ f.events = d.events := by
  unfold copyLogsStep at h
  by_cases hc : (il && sl.isSome) = true
  · rw [if_pos hc] at h
    cases hcs : copySectEntries (sl.getD []) p (sl.getD []) (d.logs.getD []) with
    | error ep => obtain ⟨e, part⟩ := ep; rw [hcs] at h; cases h
    | ok s =>
        rw [hcs] at h
        injection h with h
        rw [← h]
        exact ⟨rfl, rfl, rfl⟩
  · rw [if_neg hc] at h
    injection h with h
    rw [← h]
    exact ⟨rfl, rfl, rfl⟩

theorem copyLogsStep_err_fields (il : Bool) (sl : Option Sect) (p : String)
    (d f : RtdcFile) (e : CopyErr)
    (h : copyLogsStep il sl p d = .error (e, f)) :
    f.attrs = d.attrs ∧ f.tables = d.tables ∧ f.events = d.events := by
  unfold copyLogsStep at h
  by_cases hc : (il && sl.isSome) = true
  · rw [if_pos hc] at h
    cases hcs : copySectEntries (sl.getD []) p (sl.getD []) (d.logs.getD []) with
    | error ep =>
        obtain ⟨e0, part⟩ := ep
        rw [hcs] at h
        injection h with h
        injection h with h1 h2
        rw [← h2]
        exact ⟨rfl, rfl, rfl⟩
    | ok s => rw [hcs] at h; cases h
  · rw [if_neg hc] at h
    cases h

theorem copyLogsStep_skip (il : Bool) (sl : Option Sect) (p : String)
    (d : RtdcFile) (h : (il && sl.isSome) = false) :
    copyLogsStep il sl p d = .ok d := by
  unfold copyLogsStep
  rw [if_neg (by simp [h])]

theorem copyTablesStep_ok_fields (it : Bool) (st : Option Sect) (p : String)
    (d f : RtdcFile) (h : copyTablesStep it st p d = .ok f) :
    f.attrs = d.attrs ∧ f.logs = d.logs ∧ f.events = d.events := by
  unfold copyTablesStep at h
  by_cases hc : (it && st.isSome) = true
  · rw [if_pos hc] at h
    cases hcs : copySectEntries (st.getD []) p (st.getD []) (d.tables.getD []) with
    | error ep => obtain ⟨e, part⟩ := ep; rw [hcs] at h; cases h
    | ok s =>
        rw [hcs] at h
        injection h with h
        rw [← h]
        exact ⟨rfl, rfl, rfl⟩
  · rw [if_neg hc] at h
    injection h with h
    rw [← h]
    exact ⟨rfl, rfl, rfl⟩

theorem copyTablesStep_err_fields (it : Bool) (st : Option Sect)
    (p : String) (d f : RtdcFile) (e : CopyErr)
    (h : copyTablesStep it st p d = .error (e, f)) :
    f.attrs = d.attrs ∧ f.logs = d.logs ∧ f.events = d.events := by
  unfold copyTablesStep at h
  by_cases hc : (it && st.isSome) = true
  · rw [if_pos hc] at h
    cases hcs : copySectEntries (st.getD []) p (st.getD []) (d.tables.getD []) with
    | error ep =>
        obtain ⟨e0, part⟩ := ep
        rw [hcs] at h
        injection h with h
        injection h with h1 h2
        rw [← h2]
        exact ⟨rfl, rfl, rfl⟩
    | ok s => rw [hcs] at h; cases h
  · rw [if_neg hc] at h
    cases h

theorem copyTablesStep_skip (it : Bool) (st : Option Sect) (p : String)
    (d : RtdcFile) (h : (it && st.isSome) = false) :
    copyTablesStep it st p d = .ok d := by
  unfold copyTablesStep
  rw [if_neg (by simp [h])]

theorem copyEventsStep_skip (fe : String → Bool → Bool)
    (sfe : String → Bool) (srcEvents : Option Sect) (d : RtdcFile) :
    copyEventsStep fe sfe FeatureMode.none srcEvents d = .ok d := by
  unfold copyEventsStep
  simp

theorem copyEventsStep_missing (fe : String → Bool → Bool)
    (sfe : String → Bool) (features : FeatureMode) (d : RtdcFile)
    (hf : features ≠ FeatureMode.none) :
    copyEventsStep fe sfe features Option.none d
      = .error (.keyError "events",
          { d with events := some (d.events.getD []) }) := by
  unfold copyEventsStep
  rw [if_pos hf]


theorem copyEventsStep_ok_inv (fe : String → Bool → Bool)
    (sfe : String → Bool) (features : FeatureMode)
    (srcEvents : Option Sect) (d f : RtdcFile)
    (hf : features ≠ FeatureMode.none)
    (h : copyEventsStep fe sfe features srcEvents d = .ok f) :
    ∃ es s, srcEvents = some es
      ∧ copyEventsEntries fe sfe es (features = FeatureMode.scalar) es
          (d.events.getD []) = .ok s
      ∧ f = { d with events := some s } := by
  unfold copyEventsStep at h
  rw [if_pos hf] at h
  cases srcEvents with
  | none => cases h
  | some es =>
      simp only at h
      split at h
      · cases h
      · rename_i s heq
        injection h with h
        exact ⟨es, s, rfl, heq, h.symm⟩

theorem copyEventsStep_err_of (fe : String → Bool → Bool)
    (sfe : String → Bool) (features : FeatureMode) (es : Sect)
    (d : RtdcFile) (e : CopyErr) (part : Sect)
    (hf : features ≠ FeatureMode.none)
    (h : copyEventsEntries fe sfe es (features = FeatureMode.scalar) es
        (d.events.getD []) = .error (e, part)) :
    copyEventsStep fe sfe features (some es) d
      = .error (e, { d with events := some part }) := by
  unfold copyEventsStep
  rw [if_pos hf]
  simp only [h]

theorem rtdc_copy_ok_inv (fe : String → Bool → Bool) (sfe : String → Bool)
    (src dst : RtdcFile) (features : FeatureMode) (il it : Bool)
    (p : String) (out : RtdcFile)
    (h : rtdc_copy fe sfe src dst features il it p = .ok out) :
    ∃ d1 d2, copyLogsStep il src.logs p (mergeRootAttrs src dst) = .ok d1
      ∧ copyTablesStep it src.tables p d1 = .ok d2
      ∧ copyEventsStep fe sfe features src.events d2 = .ok out := by
  unfold rtdc_copy at h
  split at h
  · cases h
  · rename_i d1 h1
    split at h
    · cases h
    · rename_i d2 h2
      exact ⟨d1, d2, h1, h2, h⟩

theorem copyLogsStep_ok_inv (il : Bool) (ls : Sect) (p : String)
    (d f : RtdcFile) (hil : il = true)
    (h : copyLogsStep il (some ls) p d = .ok f) :
    ∃ s, copySectEntries ls p ls (d.logs.getD []) = .ok s
      ∧ f.logs = some s := by
  subst hil
  replace h : (match copySectEntries ls p ls (d.logs.getD []) with
      | Except.error (e, part) =>
          Except.error (e, { d with logs := some part })
      | Except.ok s =>
          Except.ok { d with logs := some s }) = Except.ok f := h
  split at h
  · cases h
  · rename_i s heq
    injection h with h
    rw [← h]
    exact ⟨s, heq, rfl⟩

theorem copyLogsStep_err_of (il : Bool) (ls : Sect) (p : String)
    (d : RtdcFile) (e : CopyErr) (part : Sect) (hil : il = true)
    (h : copySectEntries ls p ls (d.logs.getD []) = .error (e, part)) :
    copyLogsStep il (some ls) p d
      = .error (e, { d with logs := some part }) := by
  subst hil
  unfold copyLogsStep
  rw [if_pos (show (true && (some ls).isSome) = true from rfl),
    Option.getD_some, h]

theorem copyTablesStep_ok_inv (it : Bool) (ts : Sect) (p : String)
    (d f : RtdcFile) (hit : it = true)
    (h : copyTablesStep it (some ts) p d = .ok f) :
    ∃ s, copySectEntries ts p ts (d.tables.getD []) = .ok s
      ∧ f.tables = some s := by
  subst hit
  replace h : (match copySectEntries ts p ts (d.tables.getD []) with
      | Except.error (e, part) =>
          Except.error (e, { d with tables := some part })
      | Except.ok s =>
          Except.ok { d with tables := some s }) = Except.ok f := h
  split at h
  · cases h
  · rename_i s heq
    injection h with h
    rw [← h]
    exact ⟨s, heq, rfl⟩

theorem plan_chunks_headD_le (shape : List Nat) (sc : Option (List Nat))
    (c : List Nat) (h : plan_chunks shape sc = some c) :
    c.headD 0 ≤ shape.headD 0 := by
  cases sc with
  | none => cases h
  | some c0 =>
      simp only [plan_chunks] at h
      by_cases hcond : c0 ≠ [] ∧ shape.headD 0 < c0.headD 0
      · rw [if_pos hcond] at h
        injection h with h
        rw [← h]
        cases c0 with
        | nil => cases hcond.1 rfl
        | cons a t => simp [List.set]
      · rw [if_neg hcond] at h
        injection h with h
        rw [← h]
        rcases Decidable.not_and_iff_or_not.mp hcond with h0 | h0
        · have : c0 = [] := Decidable.not_not.mp h0
          rw [this]
          exact Nat.zero_le _
        · omega

/-! ## Example data used by the concrete claim instances -/

/-- The scalar array `[1.0, NaN, 3.0, Inf]` from the specification. -/
def exampleArr : List FVal := [.fin 1, .nan, .fin 3, .inf]

/-- An uncompressed, unchunked scalar-feature dataset holding
`exampleArr`, with no pre-existing attributes. -/
def exampleDs : Dataset :=
  { shape := [4], dtype := "f8", chunks := Option.none, filters := [],
    fletcher32 := false, attrs := [], data := exampleArr }

/-- A properly compressed dataset whose chunk shape violates
`chunk_shape[0] ≤ shape[0]`. -/
def badChunkZstdDs : Dataset :=
  { shape := [5], dtype := "f8", chunks := some [10],
    filters := [zstdClevel5], fletcher32 := false, attrs := [],
    data := [.fin 0, .fin 0, .fin 0, .fin 0, .fin 0] }

/-- The same degenerate chunk layout, uncompressed. -/
def badChunkPlainDs : Dataset :=
  { shape := [5], dtype := "f8", chunks := some [10],
    filters := [], fletcher32 := false, attrs := [],
    data := [.fin 0, .fin 0, .fin 0, .fin 0, .fin 0] }

/-- A dataset compressed with gzip (filter id 1) instead of Zstandard. -/
def gzipDs : Dataset :=
  { exampleDs with filters := [{ fid := 1, cdValues := [9] }] }

/-- A dataset compressed with Zstandard at level 4 (below policy). -/
def zstd4Ds : Dataset :=
  { exampleDs with filters := [{ fid := ZSTD_FILTER_ID, cdValues := [4] }] }

/-- A dataset compressed with Zstandard at level 5 (policy-compliant). -/
def zstd5Ds : Dataset :=
  { exampleDs with filters := [zstdClevel5] }

/-! ## Claims -/

/-- C4: `is_properly_compressed(array)` returns true iff the storage
filter pipeline carries the Zstandard filter with compression level ≥ 5;
it returns false when no Zstandard filter is present (another codec or
uncompressed) and when the Zstandard level is < 5; and it is decided from
the filter metadata alone — any two datasets with the same filter
pipeline get the same answer. -/
theorem C4_is_properly_compressed_spec (d : Dataset) :
    (is_properly_compressed d = true ↔
      ∃ f, d.filters.find? (fun f => f.fid == ZSTD_FILTER_ID) = some f
        ∧ 5 ≤ f.cdValues.headD 0)
    ∧ ((∀ f ∈ d.filters, f.fid ≠ ZSTD_FILTER_ID) →
        is_properly_compressed d = false)
    ∧ (∀ f, d.filters.find? (fun f => f.fid == ZSTD_FILTER_ID) = some f →
        f.cdValues.headD 0 < 5 → is_properly_compressed d = false)
    ∧ (d.filters = [] → is_properly_compressed d = false)
    ∧ (∀ d' : Dataset, d.filters = d'.filters →
        is_properly_compressed d = is_properly_compressed d') := by
  refine ⟨?_, ?_, ?_, ?_, ?_⟩
  · unfold is_properly_compressed
    cases hf : d.filters.find? (fun f => f.fid == ZSTD_FILTER_ID) with
    | none =>
        simp only [decide_eq_true_eq]
        constructor
        · intro h; cases h
        · rintro ⟨f, hf2, _⟩; cases hf2
    | some f0 =>
        simp only [decide_eq_true_eq]
        constructor
        · intro h; exact ⟨f0, rfl, h⟩
        · rintro ⟨f, hf2, hle⟩
          injection hf2 with hf2
          rw [hf2]; exact hle
  · intro hall
    unfold is_properly_compressed
    have : d.filters.find? (fun f => f.fid == ZSTD_FILTER_ID)
        = Option.none := by
      rw [List.find?_eq_none]
      intro f hf
      simp only [beq_iff_eq]
      exact fun he => hall f hf he
    rw [this]
  · intro f hf hlt
    unfold is_properly_compressed
    rw [hf]
    simp only [decide_eq_false_iff_not]
    omega
  · intro hnil
    unfold is_properly_compressed
    rw [hnil]
    rfl
  · intro d' hfe
    unfold is_properly_compressed
    rw [hfe]

/-- Witness for C4 at concrete datasets: Zstd level 5 passes; gzip,
Zstd level 4 and an empty filter pipeline fail. -/
theorem C4_witness :
    is_properly_compressed zstd5Ds = true
    ∧ is_properly_compressed gzipDs = false
    ∧ is_properly_compressed zstd4Ds = false
    ∧ is_properly_compressed exampleDs = false := by
  refine ⟨?_, ?_, ?_, ?_⟩
  · exact (C4_is_properly_compressed_spec zstd5Ds).1.mpr
      ⟨zstdClevel5, rfl, by decide⟩
  · exact (C4_is_properly_compressed_spec gzipDs).2.1 (by decide)
  · exact (C4_is_properly_compressed_spec zstd4Ds).2.2.1
      { fid := ZSTD_FILTER_ID, cdValues := [4] } rfl (by decide)
  · exact (C4_is_properly_compressed_spec exampleDs).2.2.2.1 rfl

/-- C6: the chunk-planning step returns an undefined chunk shape
unchanged; when the chunk shape is defined and its first axis exceeds
`shape[0]`, axis 0 is replaced by `shape[0]` while every other axis (and
the rank) is preserved; otherwise the chunk shape is returned
unchanged. -/
theorem C6_plan_chunks_spec :
    (∀ shape : List Nat, plan_chunks shape Option.none = Option.none)
    ∧ (∀ (shape c : List Nat), c ≠ [] → shape.headD 0 < c.headD 0 →
        plan_chunks shape (some c) = some (c.set 0 (shape.headD 0))
        ∧ (c.set 0 (shape.headD 0)).headD 0 = shape.headD 0
        ∧ (c.set 0 (shape.headD 0)).tail = c.tail
        ∧ (c.set 0 (shape.headD 0)).length = c.length)
    ∧ (∀ (shape c : List Nat), ¬(c ≠ [] ∧ shape.headD 0 < c.headD 0) →
        plan_chunks shape (some c) = some c) := by
  refine ⟨fun shape => rfl, ?_, ?_⟩
  · intro shape c hne hlt
    refine ⟨?_, ?_, ?_, by simp⟩
    · simp only [plan_chunks]
      rw [if_pos (And.intro hne hlt)]
    · cases c with
      | nil => cases hne rfl
      | cons a t => rfl
    · cases c with
      | nil => cases hne rfl
      | cons a t => rfl
  · intro shape c hn
    simp only [plan_chunks]
    rw [if_neg hn]

/-- Witness for C6 at concrete shapes: `[10, 2]` against extent `[5, 2]`
is corrected to `[5, 2]`; an undefined chunk shape and a fitting chunk
shape are returned unchanged. -/
theorem C6_witness :
    plan_chunks [5, 2] (some [10, 2]) = some ([10, 2].set 0 5)
    ∧ plan_chunks [5] Option.none = Option.none
    ∧ plan_chunks [5] (some [3]) = some [3] := by
  exact ⟨(C6_plan_chunks_spec.2.1 [5, 2] [10, 2] (by decide) (by decide)).1,
    C6_plan_chunks_spec.1 [5],
    C6_plan_chunks_spec.2.2 [5] [3] (by decide)⟩

/-- C8: the scalar-statistics annotation is idempotent — a second run
changes nothing, because each of `min`, `max`, `mean` is attached only
when absent and the first run leaves all three present. -/
theorem C8_annotate_idempotent (d : Dataset) :
    annotate_scalar_stats (annotate_scalar_stats d)
      = annotate_scalar_stats d := by
  obtain ⟨h1, h2, h3⟩ := annotate_has_all d
  exact annotate_of_has _ h1 h2 h3

/-- C2 counterexample: a properly compressed source dataset with
`chunks = [10]` and `shape = [5]` takes the verbatim-copy path, so the
destination keeps the source's chunk shape and violates
`chunk_shape[0] ≤ shape[0]`, contradicting the claim that the invariant
holds on the verbatim-copy path even when the source violates it. -/
theorem C2_counterexample :
    h5ds_copy [("x", .dset badChunkZstdDs)] "x" [] Option.none true
      = .ok [("x", .dset badChunkZstdDs)]
    ∧ badChunkZstdDs.chunks = some [10]
    ∧ badChunkZstdDs.shape = [5]
    ∧ ¬ (10 ≤ 5) := by
  refine ⟨?_, rfl, rfl, by decide⟩
  rfl

/-- C2 amended: on the re-encoding path (compression enforced and the
source not properly compressed) the destination's chunk shape satisfies
`chunk_shape[0] ≤ shape[0]` even when the source violates it; on the
verbatim-copy path the destination dataset equals the source, so its
chunk shape is the source's own. -/
theorem C2_amended (srcLoc : Sect) (srcName : String) (dstLoc : Sect)
    (dstName : Option String) (src : Dataset)
    (hg : alistGet srcLoc srcName = some (.dset src)) :
    (is_properly_compressed src = false →
      h5ds_copy srcLoc srcName dstLoc dstName true
        = .ok (alistSet dstLoc (resolveDstName dstName srcName)
            (.dset (reencodeDset src)))
      ∧ (reencodeDset src).shape = src.shape
      ∧ (∀ c, (reencodeDset src).chunks = some c →
          c.headD 0 ≤ src.shape.headD 0))
    ∧ (∀ ec, (ec = false ∨ is_properly_compressed src = true) →
        h5ds_copy srcLoc srcName dstLoc dstName ec
          = .ok (alistSet dstLoc (resolveDstName dstName srcName)
              (.dset src))) := by
  constructor
  · intro hc
    refine ⟨h5ds_copy_reencode _ _ _ _ _ hg hc, rfl, ?_⟩
    intro c hch
    have hpc : plan_chunks src.shape src.chunks = some c := hch
    exact plan_chunks_headD_le _ _ _ hpc
  · intro ec hec
    exact h5ds_copy_verbatim _ _ _ _ _ _ hg hec

/-- Witness for C2 amended: re-encoding the uncompressed dataset with
`chunks = [10]`, `shape = [5]` yields a destination whose chunk head is
bounded by the extent. -/
theorem C2_amended_witness :
    h5ds_copy [("x", .dset badChunkPlainDs)] "x" [] Option.none true
      = .ok (alistSet [] (resolveDstName Option.none "x")
          (.dset (reencodeDset badChunkPlainDs)))
    ∧ (∀ c, (reencodeDset badChunkPlainDs).chunks = some c →
        c.headD 0 ≤ badChunkPlainDs.shape.headD 0)
    ∧ (reencodeDset badChunkPlainDs).chunks = some [5] := by
  have h := (C2_amended [("x", .dset badChunkPlainDs)] "x" []
    Option.none badChunkPlainDs rfl).1 rfl
  exact ⟨h.1, h.2.2, rfl⟩

/-- C5: when compression is not enforced, or the source is already
properly compressed, `h5ds_copy` performs a verbatim copy — the
destination dataset is the source itself, so its filters, chunking and
checksum flag are preserved exactly; otherwise it re-encodes: the
destination carries the source's shape and dtype, the planned chunk
shape, exactly the canonical Zstd level-5 filter, fletcher32 enabled,
all source attributes, and the source's element data. -/
theorem C5_transcoder_paths (srcLoc : Sect) (srcName : String)
    (dstLoc : Sect) (dstName : Option String) (src : Dataset)
    (hg : alistGet srcLoc srcName = some (.dset src)) :
    (∀ ec, (ec = false ∨ is_properly_compressed src = true) →
      h5ds_copy srcLoc srcName dstLoc dstName ec
        = .ok (alistSet dstLoc (resolveDstName dstName srcName)
            (.dset src)))
    ∧ (is_properly_compressed src = false →
        h5ds_copy srcLoc srcName dstLoc dstName true
          = .ok (alistSet dstLoc (resolveDstName dstName srcName)
              (.dset (reencodeDset src)))
        ∧ (reencodeDset src).shape = src.shape
        ∧ (reencodeDset src).dtype = src.dtype
        ∧ (reencodeDset src).chunks = plan_chunks src.shape src.chunks
        ∧ (reencodeDset src).filters = [zstdClevel5]
        ∧ (reencodeDset src).fletcher32 = true
        ∧ (reencodeDset src).attrs = src.attrs
        ∧ (reencodeDset src).data = src.data) := by
  constructor
  · intro ec hec
    exact h5ds_copy_verbatim _ _ _ _ _ _ hg hec
  · intro hc
    exact ⟨h5ds_copy_reencode _ _ _ _ _ hg hc, rfl, rfl, rfl, rfl, rfl,
      rfl, reencodeDset_data src⟩

/-- Witness for C5: the compressed dataset is copied verbatim; the
uncompressed example dataset is re-encoded with the canonical filter,
fletcher32, and its data intact. -/
theorem C5_witness :
    h5ds_copy [("x", .dset zstd5Ds)] "x" [] Option.none true
      = .ok (alistSet [] (resolveDstName Option.none "x") (.dset zstd5Ds))
    ∧ h5ds_copy [("y", .dset exampleDs)] "y" [] Option.none true
        = .ok (alistSet [] (resolveDstName Option.none "y")
            (.dset (reencodeDset exampleDs)))
    ∧ (reencodeDset exampleDs).filters = [zstdClevel5]
    ∧ (reencodeDset exampleDs).fletcher32 = true
    ∧ (reencodeDset exampleDs).data = exampleDs.data := by
  have h1 := (C5_transcoder_paths [("x", .dset zstd5Ds)] "x" []
    Option.none zstd5Ds rfl).1 true (Or.inr (by decide))
  have h2 := (C5_transcoder_paths [("y", .dset exampleDs)] "y" []
    Option.none exampleDs rfl).2 (by decide)
  exact ⟨h1, h2.1, h2.2.2.2.2.1, h2.2.2.2.2.2.1, h2.2.2.2.2.2.2.2⟩

/-- A one-feature source container holding the example scalar array. -/
def exampleSrcFile : RtdcFile :=
  { attrs := [], logs := Option.none, tables := Option.none,
    events := some [("deform", .dset exampleDs)] }

/-- An empty destination container. -/
def emptyDstFile : RtdcFile :=
  { attrs := [], logs := Option.none, tables := Option.none,
    events := Option.none }

/-- C1 counterexample: copying the container whose scalar feature holds
`[1.0, NaN, 3.0, Inf]` attaches `max = Inf` and `mean = Inf` — the
`np.nanmin`/`np.nanmax`/`np.nanmean` reducers ignore NaN but include Inf,
so the claimed values `max = 3.0`, `mean = 2.0` (and the claim that Inf
elements are ignored) are wrong. -/
theorem C1_counterexample :
    rtdc_copy (fun _ _ => true) (fun _ => true) exampleSrcFile
        emptyDstFile FeatureMode.all true true ""
      = .ok { attrs := [], logs := Option.none, tables := Option.none,
              events := some [("deform", .dset
                { shape := [4], dtype := "f8", chunks := Option.none,
                  filters := [zstdClevel5], fletcher32 := true,
                  attrs := [("min", .num (.fin 1)), ("max", .num .inf),
                            ("mean", .num .inf)],
                  data := exampleArr })] }
    ∧ AttrVal.num FVal.inf ≠ AttrVal.num (FVal.fin 3)
    ∧ AttrVal.num FVal.inf ≠ AttrVal.num (FVal.fin 2) := by
  exact ⟨rfl, by decide, by decide⟩

/-- C3: a named source object that is a sub-group rather than a dataset
makes `h5ds_copy` fail with the not-a-dataset error (`ValueError`, the
spec's `NotADatasetError`); inside `rtdc_copy` the exception propagates,
aborting the whole container copy — a group under `events` leaves only
the freshly required (empty-so-far) events group and copies no further
entry, and a group under `logs` aborts before the `tables` and `events`
sections are ever populated. -/
theorem C3_not_a_dataset_aborts :
    (∀ (srcLoc : Sect) (srcName : String) (dstLoc : Sect)
        (dstName : Option String) (ec : Bool),
      alistGet srcLoc srcName = some .grp →
      h5ds_copy srcLoc srcName dstLoc dstName ec
        = .error (.notADataset srcName))
    ∧ (∀ (fe : String → Bool → Bool) (sfe : String → Bool)
        (src dst : RtdcFile) (il it : Bool) (p n : String) (rest : Sect),
      src.logs = Option.none → src.tables = Option.none →
      src.events = some ((n, H5Obj.grp) :: rest) → fe n false = true →
      rtdc_copy fe sfe src dst FeatureMode.all il it p
        = .error (.notADataset n,
            { mergeRootAttrs src dst with
                events := some (dst.events.getD []) }))
    ∧ (∀ (fe : String → Bool → Bool) (sfe : String → Bool)
        (src dst : RtdcFile) (mode : FeatureMode) (it : Bool)
        (p n : String) (ls : Sect),
      src.logs = some ((n, H5Obj.grp) :: ls) →
      ∃ part, rtdc_copy fe sfe src dst mode true it p
          = .error (.notADataset n, part)
        ∧ part.tables = dst.tables ∧ part.events = dst.events) := by
  refine ⟨?_, ?_, ?_⟩
  · intro srcLoc srcName dstLoc dstName ec hg
    exact h5ds_copy_grp _ _ _ _ _ hg
  · intro fe sfe src dst il it p n rest hl ht he hfe
    have hlogs : copyLogsStep il src.logs p (mergeRootAttrs src dst)
        = .ok (mergeRootAttrs src dst) := by
      rw [hl]
      exact copyLogsStep_skip il Option.none p _ (by simp)
    have htab : copyTablesStep it src.tables p (mergeRootAttrs src dst)
        = .ok (mergeRootAttrs src dst) := by
      rw [ht]
      exact copyTablesStep_skip it Option.none p _ (by simp)
    have hget : alistGet ((n, H5Obj.grp) :: rest) n = some H5Obj.grp := by
      simp [alistGet]
    have hloop : copyEventsEntries fe sfe ((n, H5Obj.grp) :: rest) false
        ((n, H5Obj.grp) :: rest)
        ((mergeRootAttrs src dst).events.getD [])
        = .error (.notADataset n,
            (mergeRootAttrs src dst).events.getD []) := by
      simp only [copyEventsEntries]
      rw [if_pos hfe, h5ds_copy_grp _ _ _ _ _ hget]
    have hstep := copyEventsStep_err_of fe sfe FeatureMode.all
      ((n, H5Obj.grp) :: rest) (mergeRootAttrs src dst)
      (.notADataset n) ((mergeRootAttrs src dst).events.getD [])
      (by decide) hloop
    unfold rtdc_copy
    simp only [hlogs, htab]
    rw [he]
    exact hstep
  · intro fe sfe src dst mode it p n ls hl
    have hget : alistGet ((n, H5Obj.grp) :: ls) n = some H5Obj.grp := by
      simp [alistGet]
    have hcs : copySectEntries ((n, H5Obj.grp) :: ls) p
        ((n, H5Obj.grp) :: ls) ((mergeRootAttrs src dst).logs.getD [])
        = .error (.notADataset n,
            (mergeRootAttrs src dst).logs.getD []) := by
      simp only [copySectEntries]
      rw [h5ds_copy_grp _ _ _ _ _ hget]
    have hstep := copyLogsStep_err_of true ((n, H5Obj.grp) :: ls) p
      (mergeRootAttrs src dst) (.notADataset n) _ rfl hcs
    refine ⟨{ mergeRootAttrs src dst with
        logs := some ((mergeRootAttrs src dst).logs.getD []) },
      ?_, rfl, rfl⟩
    unfold rtdc_copy
    rw [hl]
    simp only [hstep]

/-- A source container whose only events entry is a sub-group. -/
def groupEventsSrcFile : RtdcFile :=
  { attrs := [], logs := Option.none, tables := Option.none,
    events := some [("g", H5Obj.grp)] }

/-- Witness for C3: copying a container whose `events` entry `g` is a
sub-group aborts with the not-a-dataset error and nothing copied. -/
theorem C3_witness :
    rtdc_copy (fun _ _ => true) (fun _ => true) groupEventsSrcFile
      emptyDstFile FeatureMode.all true true ""
      = .error (.notADataset "g",
          { mergeRootAttrs groupEventsSrcFile emptyDstFile with
              events := some (emptyDstFile.events.getD []) }) := by
  exact C3_not_a_dataset_aborts.2.1 (fun _ _ => true) (fun _ => true)
    groupEventsSrcFile emptyDstFile true true "" "g" [] rfl rfl rfl rfl

/-- C10: with feature mode `'all'` or `'scalar'`, a source without an
`events` section makes `rtdc_copy` fail with `KeyError` at the events
step (the events group is accessed unconditionally, after the destination
events group has been required), while missing `logs` and `tables`
sections are tolerated: they are skipped and the copy proceeds — with
mode `'none'` the copy succeeds outright, and with an (empty) events
section present mode `'all'` succeeds as well. -/
theorem C10_missing_sections (fe : String → Bool → Bool)
    (sfe : String → Bool) (src dst : RtdcFile) (il it : Bool)
    (p : String) (hl : src.logs = Option.none)
    (ht : src.tables = Option.none) :
    (src.events = Option.none → ∀ mode, mode ≠ FeatureMode.none →
      rtdc_copy fe sfe src dst mode il it p
        = .error (.keyError "events",
            { mergeRootAttrs src dst with
                events := some (dst.events.getD []) }))
    ∧ rtdc_copy fe sfe src dst FeatureMode.none il it p
        = .ok (mergeRootAttrs src dst)
    ∧ (src.events = some [] →
        rtdc_copy fe sfe src dst FeatureMode.all il it p
          = .ok { mergeRootAttrs src dst with
              events := some (dst.events.getD []) }) := by
  have hlogs : copyLogsStep il src.logs p (mergeRootAttrs src dst)
      = .ok (mergeRootAttrs src dst) := by
    rw [hl]
    exact copyLogsStep_skip il Option.none p _ (by simp)
  have htab : copyTablesStep it src.tables p (mergeRootAttrs src dst)
      = .ok (mergeRootAttrs src dst) := by
    rw [ht]
    exact copyTablesStep_skip it Option.none p _ (by simp)
  refine ⟨?_, ?_, ?_⟩
  · intro he mode hm
    unfold rtdc_copy
    simp only [hlogs, htab]
    rw [he]
    exact copyEventsStep_missing fe sfe mode _ hm
  · unfold rtdc_copy
    simp only [hlogs, htab]
    exact copyEventsStep_skip fe sfe src.events _
  · intro he
    unfold rtdc_copy
    simp only [hlogs, htab]
    rw [he]
    rfl

/-- Witness for C10: an entirely empty source container fails with
`KeyError "events"` under mode `'all'` but succeeds under mode
`'none'`. -/
theorem C10_witness :
    rtdc_copy (fun _ _ => true) (fun _ => true) emptyDstFile
        emptyDstFile FeatureMode.all true true ""
      = .error (.keyError "events",
          { mergeRootAttrs emptyDstFile emptyDstFile with
              events := some (emptyDstFile.events.getD []) })
    ∧ rtdc_copy (fun _ _ => true) (fun _ => true) emptyDstFile
        emptyDstFile FeatureMode.none true true ""
      = .ok (mergeRootAttrs emptyDstFile emptyDstFile) := by
  have h := C10_missing_sections (fun _ _ => true) (fun _ => true)
    emptyDstFile emptyDstFile true true "" rfl rfl
  exact ⟨h.1 rfl FeatureMode.all (by decide), h.2.1⟩

theorem copyEventsStep_ok_fields (fe : String → Bool → Bool)
    (sfe : String → Bool) (features : FeatureMode)
    (srcEvents : Option Sect) (d f : RtdcFile)
    (h : copyEventsStep fe sfe features srcEvents d = .ok f) :
    f.attrs = d.attrs ∧ f.logs = d.logs ∧ f.tables = d.tables := by
  by_cases hm : features = FeatureMode.none
  · subst hm
    rw [copyEventsStep_skip] at h
    injection h with h
    rw [← h]
    exact ⟨rfl, rfl, rfl⟩
  · obtain ⟨es, s, hse, hcs, hf⟩ :=
      copyEventsStep_ok_inv fe sfe features srcEvents d f hm h
    rw [hf]
    exact ⟨rfl, rfl, rfl⟩

/-- C9: every `logs` (and `tables`) dataset entry copied by `rtdc_copy`
lands in the destination under `meta_prefix ++ name` with its element
data identical to the source's. -/
theorem C9_prefix_sections :
    (∀ (fe : String → Bool → Bool) (sfe : String → Bool)
        (src dst : RtdcFile) (mode : FeatureMode) (it : Bool)
        (p : String) (out : RtdcFile) (ls : Sect) (k : String)
        (d : Dataset),
      rtdc_copy fe sfe src dst mode true it p = .ok out →
      src.logs = some ls →
      (ls.map Prod.fst).Nodup →
      (k, .dset d) ∈ ls →
      ∃ d', alistGet (out.logs.getD []) (p ++ k) = some (.dset d')
        ∧ d'.data = d.data)
    ∧ (∀ (fe : String → Bool → Bool) (sfe : String → Bool)
        (src dst : RtdcFile) (mode : FeatureMode) (il : Bool)
        (p : String) (out : RtdcFile) (ts : Sect) (k : String)
        (d : Dataset),
      rtdc_copy fe sfe src dst mode il true p = .ok out →
      src.tables = some ts →
      (ts.map Prod.fst).Nodup →
      (k, .dset d) ∈ ts →
      ∃ d', alistGet (out.tables.getD []) (p ++ k) = some (.dset d')
        ∧ d'.data = d.data) := by
  constructor
  · intro fe sfe src dst mode it p out ls k d hok hl hnd hm
    obtain ⟨d1, d2, h1, h2, h3⟩ :=
      rtdc_copy_ok_inv fe sfe src dst mode true it p out hok
    rw [hl] at h1
    obtain ⟨s, hcs, hd1logs⟩ :=
      copyLogsStep_ok_inv true ls p (mergeRootAttrs src dst) d1 rfl h1
    have hget : alistGet ls k = some (.dset d) :=
      alistGet_of_mem_nodup ls k _ hm hnd
    obtain ⟨d', hgout, hdata⟩ := copySectEntries_ok_mem ls p ls
      ((mergeRootAttrs src dst).logs.getD []) s k (.dset d) d
      hcs hnd hm hget
    have ht2 := (copyTablesStep_ok_fields it src.tables p d1 d2 h2).2.1
    have he2 :=
      (copyEventsStep_ok_fields fe sfe mode src.events d2 out h3).2.1
    refine ⟨d', ?_, hdata⟩
    rw [he2, ht2, hd1logs, Option.getD_some]
    exact hgout
  · intro fe sfe src dst mode il p out ts k d hok ht hnd hm
    obtain ⟨d1, d2, h1, h2, h3⟩ :=
      rtdc_copy_ok_inv fe sfe src dst mode il true p out hok
    rw [ht] at h2
    obtain ⟨s, hcs, hd2tab⟩ :=
      copyTablesStep_ok_inv true ts p d1 d2 rfl h2
    have hget : alistGet ts k = some (.dset d) :=
      alistGet_of_mem_nodup ts k _ hm hnd
    have hl1 :=
      (copyLogsStep_ok_fields il src.logs p (mergeRootAttrs src dst) d1
        h1).2.1
    obtain ⟨d', hgout, hdata⟩ := copySectEntries_ok_mem ts p ts
      (d1.tables.getD []) s k (.dset d) d hcs hnd hm hget
    have he2 :=
      (copyEventsStep_ok_fields fe sfe mode src.events d2 out h3).2.2
    refine ⟨d', ?_, hdata⟩
    rw [he2, hd2tab, Option.getD_some]
    exact hgout

/-- A source container with one log entry named `session`. -/
def logsSrcFile : RtdcFile :=
  { attrs := [], logs := some [("session", .dset exampleDs)],
    tables := Option.none, events := Option.none }

/-- The destination produced by copying `logsSrcFile` with prefix
`exp1_` and feature mode `'none'`. -/
def logsOutFile : RtdcFile :=
  { attrs := [],
    logs := some [("exp1_session", .dset (reencodeDset exampleDs))],
    tables := Option.none, events := Option.none }

/-- Witness for C9 at the concrete prefix: the log `session` copied with
prefix `exp1_` lands under `exp1_session` with its data intact. -/
theorem C9_witness :
    ∃ d', alistGet (logsOutFile.logs.getD []) ("exp1_" ++ "session")
        = some (.dset d')
      ∧ d'.data = exampleDs.data := by
  exact C9_prefix_sections.1 (fun _ _ => true) (fun _ => true) logsSrcFile
    emptyDstFile FeatureMode.none true "exp1_" logsOutFile
    [("session", .dset exampleDs)] "session" exampleDs
    rfl rfl (by simp) (by simp)

/-- C7: the feature mode selects exactly which `events` entries are
copied.  Mode `'none'` leaves the destination events section untouched
whatever else happens; under `'all'`/`'scalar'`, a name for which the
feature-existence predicate (called with the corresponding
`scalar_only`) does not hold is not written at all; a name for which it
holds is written as a dataset; and a source whose entries all fail the
predicate is copied successfully — skipped entries are silent and raise
no error. -/
theorem C7_feature_mode_selects :
    (∀ (fe : String → Bool → Bool) (sfe : String → Bool)
        (src dst : RtdcFile) (il it : Bool) (p : String),
      (∀ out, rtdc_copy fe sfe src dst FeatureMode.none il it p = .ok out →
        out.events = dst.events)
      ∧ (∀ e f, rtdc_copy fe sfe src dst FeatureMode.none il it p
          = .error (e, f) → f.events = dst.events))
    ∧ (∀ (fe : String → Bool → Bool) (sfe : String → Bool)
        (src dst : RtdcFile) (mode : FeatureMode) (il it : Bool)
        (p : String) (out : RtdcFile) (es : Sect) (n : String),
      mode ≠ FeatureMode.none →
      rtdc_copy fe sfe src dst mode il it p = .ok out →
      src.events = some es →
      (∀ q ∈ es, fe q.1 (mode = FeatureMode.scalar) = true → q.1 ≠ n) →
      alistGet (out.events.getD []) n = alistGet (dst.events.getD []) n)
    ∧ (∀ (fe : String → Bool → Bool) (sfe : String → Bool)
        (src dst : RtdcFile) (mode : FeatureMode) (il it : Bool)
        (p : String) (out : RtdcFile) (es : Sect) (k : String)
        (o : H5Obj) (d : Dataset),
      mode ≠ FeatureMode.none →
      rtdc_copy fe sfe src dst mode il it p = .ok out →
      src.events = some es →
      (es.map Prod.fst).Nodup →
      (k, o) ∈ es →
      fe k (mode = FeatureMode.scalar) = true →
      alistGet es k = some (.dset d) →
      ∃ d', alistGet (out.events.getD []) k = some (.dset d')
        ∧ d'.data = d.data)
    ∧ (∀ (fe : String → Bool → Bool) (sfe : String → Bool)
        (src dst : RtdcFile) (mode : FeatureMode) (il it : Bool)
        (p : String) (es : Sect),
      mode ≠ FeatureMode.none →
      src.logs = Option.none → src.tables = Option.none →
      src.events = some es →
      (∀ q ∈ es, fe q.1 (mode = FeatureMode.scalar) = false) →
      rtdc_copy fe sfe src dst mode il it p
        = .ok { mergeRootAttrs src dst with
            events := some (dst.events.getD []) }) := by
  refine ⟨?_, ?_, ?_, ?_⟩
  · intro fe sfe src dst il it p
    constructor
    · intro out hok
      obtain ⟨d1, d2, h1, h2, h3⟩ :=
        rtdc_copy_ok_inv fe sfe src dst FeatureMode.none il it p out hok
      rw [copyEventsStep_skip] at h3
      injection h3 with h3
      rw [← h3, (copyTablesStep_ok_fields _ _ _ _ _ h2).2.2,
        (copyLogsStep_ok_fields _ _ _ _ _ h1).2.2]
      rfl
    · intro e f herr
      unfold rtdc_copy at herr
      split at herr
      · rename_i e0 h1
        injection herr with he0
        subst he0
        exact (copyLogsStep_err_fields _ _ _ _ _ _ h1).2.2
      · rename_i d1 h1
        split at herr
        · rename_i e0 h2
          injection herr with he0
          subst he0
          have hf := (copyTablesStep_err_fields _ _ _ _ _ _ h2).2.2
          rw [hf, (copyLogsStep_ok_fields _ _ _ _ _ h1).2.2]
          rfl
        · rename_i d2 h2
          rw [copyEventsStep_skip] at herr
          cases herr
  · intro fe sfe src dst mode il it p out es n hm hok he hskip
    obtain ⟨d1, d2, h1, h2, h3⟩ :=
      rtdc_copy_ok_inv fe sfe src dst mode il it p out hok
    obtain ⟨es', s, hse, hcs, hout⟩ :=
      copyEventsStep_ok_inv fe sfe mode src.events d2 out hm h3
    rw [he] at hse
    injection hse with hse
    subst hse
    have hd2 : d2.events = dst.events := by
      rw [(copyTablesStep_ok_fields _ _ _ _ _ h2).2.2,
        (copyLogsStep_ok_fields _ _ _ _ _ h1).2.2]
      rfl
    have huntouched := copyEventsEntries_ok_untouched fe sfe es
      (mode = FeatureMode.scalar) es (d2.events.getD []) s n hcs hskip
    rw [hout, Option.getD_some, huntouched, hd2]
  · intro fe sfe src dst mode il it p out es k o d hm hok he hnd hmem hf hget
    obtain ⟨d1, d2, h1, h2, h3⟩ :=
      rtdc_copy_ok_inv fe sfe src dst mode il it p out hok
    obtain ⟨es', s, hse, hcs, hout⟩ :=
      copyEventsStep_ok_inv fe sfe mode src.events d2 out hm h3
    rw [he] at hse
    injection hse with hse
    subst hse
    obtain ⟨d', hg', hdata⟩ := copyEventsEntries_ok_mem fe sfe es
      (mode = FeatureMode.scalar) es (d2.events.getD []) s k o d
      hcs hnd hmem hf hget
    refine ⟨d', ?_, hdata⟩
    rw [hout, Option.getD_some]
    exact hg'
  · intro fe sfe src dst mode il it p es hm hl ht he hskip
    have hlogs : copyLogsStep il src.logs p (mergeRootAttrs src dst)
        = .ok (mergeRootAttrs src dst) := by
      rw [hl]
      exact copyLogsStep_skip il Option.none p _ (by simp)
    have htab : copyTablesStep it src.tables p (mergeRootAttrs src dst)
        = .ok (mergeRootAttrs src dst) := by
      rw [ht]
      exact copyTablesStep_skip it Option.none p _ (by simp)
    have hstep : copyEventsStep fe sfe mode (some es)
        (mergeRootAttrs src dst)
        = .ok { mergeRootAttrs src dst with
            events := some ((mergeRootAttrs src dst).events.getD []) } := by
      unfold copyEventsStep
      rw [if_pos hm]
      simp only [copyEventsEntries_all_skipped fe sfe es
        (mode = FeatureMode.scalar) es
        ((mergeRootAttrs src dst).events.getD []) hskip]
    unfold rtdc_copy
    simp only [hlogs, htab]
    rw [he]
    exact hstep

/-- The annotated dataset produced by copying `exampleDs` through the
events section. -/
def exampleAnnotatedDs : Dataset :=
  { shape := [4], dtype := "f8", chunks := Option.none,
    filters := [zstdClevel5], fletcher32 := true,
    attrs := [("min", .num (.fin 1)), ("max", .num .inf),
              ("mean", .num .inf)],
    data := exampleArr }

/-- The destination file produced by copying `exampleSrcFile` with an
all-true predicate. -/
def exampleOutFile : RtdcFile :=
  { attrs := [], logs := Option.none, tables := Option.none,
    events := some [("deform", .dset exampleAnnotatedDs)] }

/-- Witness for C7: with an all-false predicate every events entry is
silently skipped and the copy succeeds with an empty events group; with
an all-true predicate the entry `deform` is copied as a dataset with its
data intact. -/
theorem C7_witness :
    rtdc_copy (fun _ _ => false) (fun _ => true) exampleSrcFile
        emptyDstFile FeatureMode.all true true ""
      = .ok { mergeRootAttrs exampleSrcFile emptyDstFile with
          events := some (emptyDstFile.events.getD []) }
    ∧ (∃ d', alistGet (exampleOutFile.events.getD []) "deform"
        = some (.dset d') ∧ d'.data = exampleDs.data) := by
  constructor
  · exact C7_feature_mode_selects.2.2.2 (fun _ _ => false) (fun _ => true)
      exampleSrcFile emptyDstFile FeatureMode.all true true ""
      [("deform", .dset exampleDs)] (by decide) rfl rfl rfl
      (fun q _ => rfl)
  · exact C7_feature_mode_selects.2.2.1 (fun _ _ => true) (fun _ => true)
      exampleSrcFile emptyDstFile FeatureMode.all true true ""
      exampleOutFile [("deform", .dset exampleDs)] "deform"
      (.dset exampleDs) exampleDs (by decide) rfl rfl (by simp)
      (by simp) rfl rfl

theorem statStep_get_ne (acc : Dataset) (p : (List FVal → FVal) × String)
    (k : String) (h : p.2 ≠ k) :
    alistGet (statStep acc p).attrs k = alistGet acc.attrs k := by
  unfold statStep
  split
  · rfl
  · exact alistGet_set_ne _ _ _ _ h

theorem statStep_attached (acc : Dataset) (f : List FVal → FVal)
    (k : String) (h : alistHas acc.attrs k = false) :
    alistGet (statStep acc (f, k)).attrs k = some (.num (f acc.data)) := by
  rw [statStep_of_absent acc f k h]
  exact alistGet_set_self _ _ _

theorem annotate_attached_min (d : Dataset)
    (h : alistHas d.attrs "min" = false) :
    alistGet (annotate_scalar_stats d).attrs "min"
      = some (.num (nanmin d.data)) := by
  show alistGet (statStep (statStep (statStep d (nanmin, "min"))
      (nanmax, "max")) (nanmean, "mean")).attrs "min" = _
  rw [statStep_get_ne _ _ _ (show ("mean" : String) ≠ "min" by decide),
    statStep_get_ne _ _ _ (show ("max" : String) ≠ "min" by decide)]
  exact statStep_attached d nanmin "min" h

theorem annotate_attached_max (d : Dataset)
    (h : alistHas d.attrs "max" = false) :
    alistGet (annotate_scalar_stats d).attrs "max"
      = some (.num (nanmax d.data)) := by
  have h1 : alistHas (statStep d (nanmin, "min")).attrs "max" = false := by
    unfold alistHas
    rw [statStep_get_ne _ _ _ (show ("min" : String) ≠ "max" by decide)]
    exact h
  show alistGet (statStep (statStep (statStep d (nanmin, "min"))
      (nanmax, "max")) (nanmean, "mean")).attrs "max" = _
  rw [statStep_get_ne _ _ _ (show ("mean" : String) ≠ "max" by decide)]
  have h2 := statStep_attached (statStep d (nanmin, "min")) nanmax "max" h1
  rw [statStep_data] at h2
  exact h2

theorem annotate_attached_mean (d : Dataset)
    (h : alistHas d.attrs "mean" = false) :
    alistGet (annotate_scalar_stats d).attrs "mean"
      = some (.num (nanmean d.data)) := by
  have h1 : alistHas (statStep d (nanmin, "min")).attrs "mean" = false := by
    unfold alistHas
    rw [statStep_get_ne _ _ _ (show ("min" : String) ≠ "mean" by decide)]
    exact h
  have h2 : alistHas (statStep (statStep d (nanmin, "min"))
      (nanmax, "max")).attrs "mean" = false := by
    unfold alistHas
    rw [statStep_get_ne _ _ _ (show ("max" : String) ≠ "mean" by decide)]
    exact h1
  have h3 := statStep_attached (statStep (statStep d (nanmin, "min"))
    (nanmax, "max")) nanmean "mean" h2
  rw [statStep_data, statStep_data] at h3
  exact h3

theorem h5ds_copy_ok_dset (srcLoc : Sect) (srcName : String)
    (dstLoc : Sect) (dstName : Option String) (ec : Bool) (src : Dataset)
    (h : alistGet srcLoc srcName = some (.dset src)) :
    ∃ d', h5ds_copy srcLoc srcName dstLoc dstName ec
        = .ok (alistSet dstLoc (resolveDstName dstName srcName) (.dset d'))
      ∧ d'.attrs = src.attrs ∧ d'.data = src.data := by
  by_cases hc : (ec && !is_properly_compressed src) = true
  · refine ⟨reencodeDset src, ?_, rfl, reencodeDset_data src⟩
    simp [h5ds_copy, h, hc]
  · refine ⟨src, ?_, rfl, rfl⟩
    simp only [h5ds_copy, h]
    rw [if_neg hc]

theorem annotateStep_get_scalar (sfe : String → Bool) (feat : String)
    (acc : Sect) (d2 : Dataset) (hs : sfe feat = true)
    (hg : alistGet acc feat = some (.dset d2)) :
    alistGet (annotateStep sfe feat acc) feat
      = some (.dset (annotate_scalar_stats d2)) := by
  unfold annotateStep
  rw [if_pos hs, hg]
  exact alistGet_set_self _ _ _

theorem copyEventsEntries_ok_mem_scalar (fe : String → Bool → Bool)
    (sfe : String → Bool) (srcSect : Sect) (so : Bool)
    (keys : List (String × H5Obj)) (acc out : Sect) (k : String)
    (o : H5Obj) (d : Dataset)
    (h : copyEventsEntries fe sfe srcSect so keys acc = .ok out)
    (hnd : (keys.map Prod.fst).Nodup)
    (hm : (k, o) ∈ keys)
    (hf : fe k so = true)
    (hs : sfe k = true)
    (hg : alistGet srcSect k = some (.dset d)) :
    ∃ d2, alistGet out k = some (.dset (annotate_scalar_stats d2))
      ∧ d2.attrs = d.attrs ∧ d2.data = d.data := by
  induction keys generalizing acc with
  | nil => cases hm
  | cons q rest ih =>
      obtain ⟨k0, o0⟩ := q
      simp only [copyEventsEntries] at h
      simp only [List.map_cons, List.nodup_cons] at hnd
      rcases List.mem_cons.mp hm with hh | hh
      · have hk0 : k0 = k := congrArg Prod.fst hh.symm
        subst hk0
        rw [if_pos hf] at h
        obtain ⟨d2, hok, hattrs, hdata⟩ :=
          h5ds_copy_ok_dset srcSect k0 acc Option.none true d hg
        rw [resolveDstName_none] at hok
        rw [hok] at h
        have h' : copyEventsEntries fe sfe srcSect so rest
            (annotateStep sfe k0 (alistSet acc k0 (.dset d2))) = .ok out := h
        have hrest : ∀ q ∈ rest, fe q.1 so = true → q.1 ≠ k0 := by
          intro q hq _ he
          exact hnd.1 (he ▸ (List.mem_map.mpr ⟨q, hq, rfl⟩))
        have hann := annotateStep_get_scalar sfe k0
          (alistSet acc k0 (.dset d2)) d2 hs (alistGet_set_self _ _ _)
        rw [copyEventsEntries_ok_untouched fe sfe srcSect so rest _ out
              k0 h' hrest, hann]
        exact ⟨d2, rfl, hattrs, hdata⟩
      · by_cases hf0 : fe k0 so = true
        · rw [if_pos hf0] at h
          cases hc : h5ds_copy srcSect k0 acc Option.none true with
          | error e => rw [hc] at h; cases h
          | ok acc2 =>
              rw [hc] at h
              have h' : copyEventsEntries fe sfe srcSect so rest
                  (annotateStep sfe k0 acc2) = .ok out := h
              exact ih _ h' hnd.2 hh
        · rw [if_neg hf0] at h
          exact ih _ h hnd.2 hh

/-- C1 amended: for every scalar-feature dataset copied by `rtdc_copy`
(feature retained, recognized as a scalar feature), each of the `min`,
`max`, `mean` attributes that was absent in the source is attached on
the destination dataset, computed by the NaN-ignoring reducers
`nanmin`/`nanmax`/`nanmean` over the source elements — these ignore NaN
but include Inf; on `[1.0, NaN, 3.0, Inf]` the attached values are
`min = 1.0`, `max = Inf`, `mean = Inf`, as delivered end-to-end through
`rtdc_copy`. -/
theorem C1_amended :
    (∀ (fe : String → Bool → Bool) (sfe : String → Bool)
        (src dst : RtdcFile) (mode : FeatureMode) (il it : Bool)
        (p : String) (out : RtdcFile) (es : Sect) (k : String)
        (d : Dataset),
      mode ≠ FeatureMode.none →
      rtdc_copy fe sfe src dst mode il it p = .ok out →
      src.events = some es →
      (es.map Prod.fst).Nodup →
      (k, H5Obj.dset d) ∈ es →
      fe k (mode = FeatureMode.scalar) = true →
      sfe k = true →
      ∃ dd, alistGet (out.events.getD []) k = some (.dset dd)
        ∧ (alistHas d.attrs "min" = false →
            alistGet dd.attrs "min" = some (.num (nanmin d.data)))
        ∧ (alistHas d.attrs "max" = false →
            alistGet dd.attrs "max" = some (.num (nanmax d.data)))
        ∧ (alistHas d.attrs "mean" = false →
            alistGet dd.attrs "mean" = some (.num (nanmean d.data))))
    ∧ nanmin exampleArr = .fin 1
    ∧ nanmax exampleArr = .inf
    ∧ nanmean exampleArr = .inf
    ∧ (∃ out ds, rtdc_copy (fun _ _ => true) (fun _ => true) exampleSrcFile
          emptyDstFile FeatureMode.all true true "" = .ok out
        ∧ alistGet (out.events.getD []) "deform" = some (.dset ds)
        ∧ alistGet ds.attrs "min" = some (.num (.fin 1))
        ∧ alistGet ds.attrs "max" = some (.num .inf)
        ∧ alistGet ds.attrs "mean" = some (.num .inf)) := by
  refine ⟨?_, rfl, rfl, rfl, ?_⟩
  · intro fe sfe src dst mode il it p out es k d hm hok he hnd hmem hf hs
    obtain ⟨d1, d2f, h1, h2, h3⟩ :=
      rtdc_copy_ok_inv fe sfe src dst mode il it p out hok
    obtain ⟨es', s, hse, hcs, hout⟩ :=
      copyEventsStep_ok_inv fe sfe mode src.events d2f out hm h3
    rw [he] at hse
    injection hse with hse
    subst hse
    have hget : alistGet es k = some (.dset d) :=
      alistGet_of_mem_nodup es k _ hmem hnd
    obtain ⟨d2, hgout, hattrs, hdata⟩ := copyEventsEntries_ok_mem_scalar
      fe sfe es (mode = FeatureMode.scalar) es (d2f.events.getD []) s k
      (H5Obj.dset d) d hcs hnd hmem hf hs hget
    refine ⟨annotate_scalar_stats d2, ?_, ?_, ?_, ?_⟩
    · rw [hout, Option.getD_some]
      exact hgout
    · intro habs
      have hres := annotate_attached_min d2 (by rw [hattrs]; exact habs)
      rw [hdata] at hres
      exact hres
    · intro habs
      have hres := annotate_attached_max d2 (by rw [hattrs]; exact habs)
      rw [hdata] at hres
      exact hres
    · intro habs
      have hres := annotate_attached_mean d2 (by rw [hattrs]; exact habs)
      rw [hdata] at hres
      exact hres
  · refine ⟨_, _, rfl, rfl, ?_, ?_, ?_⟩ <;> rfl

/-- A source dataset that already carries a `min` attribute but not
`max` or `mean`. -/
def partialAttrsDs : Dataset :=
  { shape := [4], dtype := "f8", chunks := Option.none, filters := [],
    fletcher32 := false, attrs := [("min", .num (.fin 42))],
    data := exampleArr }

/-- A one-feature source container holding `partialAttrsDs`. -/
def partialSrcFile : RtdcFile :=
  { attrs := [], logs := Option.none, tables := Option.none,
    events := some [("deform", .dset partialAttrsDs)] }

/-- The destination produced by copying `partialSrcFile`: the existing
`min` is kept, and the absent `max`/`mean` are attached. -/
def partialOutFile : RtdcFile :=
  { attrs := [], logs := Option.none, tables := Option.none,
    events := some [("deform", .dset
      { shape := [4], dtype := "f8", chunks := Option.none,
        filters := [zstdClevel5], fletcher32 := true,
        attrs := [("min", .num (.fin 42)), ("max", .num .inf),
                  ("mean", .num .inf)],
        data := exampleArr })] }

/-- Witness for C1 amended: on the attribute-free example dataset all
three statistics are attached; on a source that already carries `min`
(and only `min`), the individually absent `max` and `mean` are still
attached — each hypothesis discharged at the concrete input. -/
theorem C1_amended_witness :
    (∃ dd, alistGet (exampleOutFile.events.getD []) "deform"
        = some (.dset dd)
      ∧ alistGet dd.attrs "min" = some (.num (nanmin exampleDs.data))
      ∧ alistGet dd.attrs "max" = some (.num (nanmax exampleDs.data))
      ∧ alistGet dd.attrs "mean" = some (.num (nanmean exampleDs.data)))
    ∧ (∃ dd, alistGet (partialOutFile.events.getD []) "deform"
        = some (.dset dd)
      ∧ alistGet dd.attrs "max" = some (.num (nanmax partialAttrsDs.data))
      ∧ alistGet dd.attrs "mean"
          = some (.num (nanmean partialAttrsDs.data))) := by
  constructor
  · obtain ⟨dd, h0, hmin, hmax, hmean⟩ := C1_amended.1
      (fun _ _ => true) (fun _ => true) exampleSrcFile emptyDstFile
      FeatureMode.all true true "" exampleOutFile
      [("deform", .dset exampleDs)] "deform" exampleDs
      (by decide) rfl rfl (by simp) (by simp) rfl rfl
    exact ⟨dd, h0, hmin rfl, hmax rfl, hmean rfl⟩
  · obtain ⟨dd, h0, hmin, hmax, hmean⟩ := C1_amended.1
      (fun _ _ => true) (fun _ => true) partialSrcFile emptyDstFile
      FeatureMode.all true true "" partialOutFile
      [("deform", .dset partialAttrsDs)] "deform" partialAttrsDs
      (by decide) rfl rfl (by simp) (by simp) rfl rfl
    exact ⟨dd, h0, hmax (by decide), hmean (by decide)⟩
